import Mathlib

/-!
Verification of the race-registration backend (afcorrida).

Shallow embedding of the server of this repository:
* the shared drizzle/zod schema (`shared/schema.ts`): `Registrant`, `AdminUser`,
  `insertRegistrantSchema`, `updatePaymentStatusSchema`;
* the in-memory store `MemStorage` (maps become association lists in insertion
  order, `Set` becomes a list without duplicates);
* the bib allocators of `MemStorage` and `DatabaseStorage` (the random source
  becomes an injected stream `Nat → Nat`, one value per `Math.random()` call);
* the Express route handlers of `server/routes.ts` (the session becomes an
  explicit value, request bodies become JSON-like key/value lists);
* `DatabaseStorage`'s SQL queries over the `registrants` table, read as
  operations on the list of rows.

Timestamps are modelled as natural numbers (epoch milliseconds); `Math.random()`
draws are modelled by the injected stream, with `Math.floor(Math.random()*999)+1`
becoming `stream i % 999 + 1`.
-/

namespace Afcorrida

/-- JSON-like values of a request body, as far as the routes inspect them. -/
inductive Jval where
  | str (s : String)
  | num (n : Int)
  | null
deriving Repr, DecidableEq

/-- A row of the `registrants` table (shared schema), equivalently a value of
`MemStorage`'s registrants map.  `created_at` is epoch milliseconds.  The table
has no email column. -/
structure Registrant where
  id : String
  name : String
  bib : Nat
  created_at : Nat
  payment_status : String
deriving Repr, DecidableEq

/-- A row of the `admin_users` table (shared schema). -/
structure AdminUser where
  id : String
  username : String
  password : String
deriving Repr, DecidableEq

/-- The payload accepted by `insertRegistrantSchema`
(`createInsertSchema(registrants).pick({ name: true })`): only a name. -/
structure InsertRegistrant where
  name : String
deriving Repr, DecidableEq

/-- Substring test on character lists: JS `String.prototype.includes`. -/
def listHasSub [BEq α] : List α → List α → Bool
  | [], needle => needle.isEmpty
  | a :: t, needle => needle.isPrefixOf (a :: t) || listHasSub t needle

/-- JS `s.includes(sub)`. -/
def strIncludes (s sub : String) : Bool := listHasSub s.data sub.data

/-- JS `s.toLowerCase()`, character-wise (`Char.toLower`; the data of this app
is ASCII). -/
def strToLower (s : String) : String := ⟨s.data.map Char.toLower⟩

/-- JS string truthiness: every string except `""` is truthy. -/
def strTruthy (s : String) : Bool := !(s == "")

/-- One draw of `Math.floor(Math.random() * 999) + 1`, fed by a raw stream
value: always in `[1, 999]`. -/
def drawBib (r : Nat) : Nat := r % 999 + 1

/-- `MemStorage.generateUniqueBibNumber` (src/unnamed/part_001 lines 92-99),
with an explicit random stream and an explicit iteration budget.  The source is
an uncapped `do … while (usedBibNumbers.has(bib))` loop; `none` means the loop
has not produced a value within `fuel` iterations (there is no retry cap and no
failure path in the source). -/
def memGenBib (stream : Nat → Nat) (used : List Nat) (i : Nat) : Nat → Option Nat
  | 0 => none
  | fuel + 1 =>
    let bib := drawBib (stream i)
    if used.contains bib then memGenBib stream used (i + 1) fuel
    else some bib

/-- Failure of `DatabaseStorage.generateUniqueBibNumber` on retry exhaustion
(`throw new Error("Unable to generate unique bib number after maximum attempts")`). -/
inductive AllocError where
  | allocationExhausted
deriving Repr, DecidableEq

/-- `maxAttempts` of `DatabaseStorage.generateUniqueBibNumber`
(src/server/storage.ts line 181). -/
def dbMaxAttempts : Nat := 100

/-- Loop body of `DatabaseStorage.generateUniqueBibNumber`
(src/server/storage.ts lines 178-201), indexed by the remaining attempts
(`maxAttempts - attempts`); `used` is the set of bib values present in the
`registrants` table, checked by the `select … where eq(registrants.bib, bib)`
existence query. -/
def dbGenBibGo (stream : Nat → Nat) (used : List Nat) (i : Nat) :
    Nat → Except AllocError Nat
  | 0 => .error .allocationExhausted
  | remaining + 1 =>
    let bib := drawBib (stream i)
    if used.contains bib then dbGenBibGo stream used (i + 1) remaining
    else .ok bib

/-- `DatabaseStorage.generateUniqueBibNumber`: at most 100 draws, then failure. -/
def dbGenerateUniqueBibNumber (stream : Nat → Nat) (used : List Nat) :
    Except AllocError Nat :=
  dbGenBibGo stream used 0 dbMaxAttempts

/-- JS `Map<string, Registrant>` lookup (`map.get`), on an association list in
insertion order. -/
def mapGet (m : List (String × Registrant)) (k : String) : Option Registrant :=
  (m.find? (fun p => p.1 == k)).map (fun p => p.2)

/-- JS `map.set`: replaces the value in place when the key is present
(preserving insertion order), otherwise appends. -/
def mapSet (m : List (String × Registrant)) (k : String) (v : Registrant) :
    List (String × Registrant) :=
  if m.any (fun p => p.1 == k) then
    m.map (fun p => if p.1 == k then (k, v) else p)
  else m ++ [(k, v)]

/-- The state of `MemStorage` (src/unnamed/part_001): the registrants map and
the `usedBibNumbers` set (a list without duplicates, in insertion order). -/
structure MemStorage where
  registrants : List (String × Registrant)
  usedBibNumbers : List Nat
deriving Repr, DecidableEq

/-- The freshly constructed store. -/
def MemStorage.empty : MemStorage := ⟨[], []⟩

/-- `Array.from(map.values()).sort((a, b) => b.created_at - a.created_at)`:
a stable sort, most recent first (JS `Array.sort` is stable; any stable sort
computes the same list, here an insertion sort). -/
def sortByCreatedDesc (l : List Registrant) : List Registrant :=
  l.insertionSort (fun a b => b.created_at ≤ a.created_at)

/-- `MemStorage.getRegistrants`. -/
def MemStorage.getRegistrants (s : MemStorage) : List Registrant :=
  sortByCreatedDesc (s.registrants.map (fun p => p.2))

/-- `MemStorage.getRegistrantById`. -/
def MemStorage.getRegistrantById (s : MemStorage) (id : String) : Option Registrant :=
  mapGet s.registrants id

/-- `MemStorage.createRegistrant` (src/unnamed/part_001 lines 46-60): `id` is
the injected `randomUUID()` result, `now` the injected clock value, `stream`
and `fuel` drive the allocator.  `none` means the allocator loop did not
terminate within `fuel` draws, in which case nothing is stored. -/
def MemStorage.createRegistrant (s : MemStorage) (ins : InsertRegistrant)
    (id : String) (now : Nat) (stream : Nat → Nat) (fuel : Nat) :
    Option (Registrant × MemStorage) :=
  match memGenBib stream s.usedBibNumbers 0 fuel with
  | none => none
  | some bib =>
    let r : Registrant :=
      { id := id, name := ins.name, bib := bib, created_at := now,
        payment_status := "pendente" }
    some (r, ⟨mapSet s.registrants id r, s.usedBibNumbers ++ [bib]⟩)

/-- `MemStorage.updatePaymentStatus` (src/unnamed/part_001 lines 62-69):
returns the updated record, or `none` leaving the store untouched. -/
def MemStorage.updatePaymentStatus (s : MemStorage) (id : String)
    (status : String) : Option Registrant × MemStorage :=
  match mapGet s.registrants id with
  | none => (none, s)
  | some r =>
    let updated : Registrant := { r with payment_status := status }
    (some updated, ⟨mapSet s.registrants id updated, s.usedBibNumbers⟩)

/-- `MemStorage.clearAllRegistrants`. -/
def MemStorage.clearAllRegistrants (_s : MemStorage) : MemStorage := ⟨[], []⟩

/-- `MemStorage.searchRegistrants` (src/unnamed/part_001 lines 76-84). -/
def MemStorage.searchRegistrants (s : MemStorage) (query : String) :
    List Registrant :=
  let lowercaseQuery := strToLower query
  (s.getRegistrants).filter (fun r =>
    strIncludes (strToLower r.name) lowercaseQuery ||
    strIncludes (toString r.bib) query)

/-- `MemStorage.getAdminByUsername`. -/
def getAdminByUsername (admins : List AdminUser) (username : String) :
    Option AdminUser :=
  admins.find? (fun a => a.username == username)

/-! ### DatabaseStorage queries over the `registrants` rows -/

/-- `select … where eq(registrants.id, id) limit 1`
(`DatabaseStorage.getRegistrantById`). -/
def dbGetRegistrantById (rows : List Registrant) (id : String) :
    Option Registrant :=
  rows.find? (fun r => r.id == id)

/-- `DatabaseStorage.updatePaymentStatus` (src/server/storage.ts lines
139-147): `update registrants set payment_status = status where id = id
returning`; the handler consumes `result[0]`. -/
def dbUpdatePaymentStatus (rows : List Registrant) (id : String)
    (status : String) : Option Registrant × List Registrant :=
  let updatedRows := rows.map (fun r =>
    if r.id == id then { r with payment_status := status } else r)
  (updatedRows.find? (fun r => r.id == id), updatedRows)

/-- JS `parseInt` on the strings this app feeds it: leading whitespace, an
optional sign, then leading decimal digits; `none` models `NaN`. -/
def jsParseInt (s : String) : Option Int :=
  let cs := s.data.dropWhile (fun c => c.isWhitespace)
  let (sign, rest) : Int × List Char :=
    match cs with
    | '-' :: t => (-1, t)
    | '+' :: t => (1, t)
    | _ => (1, cs)
  let ds := rest.takeWhile (fun c => c.isDigit)
  if ds.isEmpty then none
  else some (sign * (ds.foldl (fun acc c => acc * 10 + (c.toNat - '0'.toNat)) 0 : Nat))

/-- The `parseInt(query) || -1` of `DatabaseStorage.searchRegistrants`:
`NaN` and `0` are both falsy, so both fall back to `-1`. -/
def parseIntOrNeg1 (q : String) : Int :=
  match jsParseInt q with
  | none => -1
  | some 0 => -1
  | some n => n

/-- SQL `ILIKE '%pat%'`: case-insensitive containment (the queries this app
builds contain no further wildcards). -/
def ilikeContains (hay pat : String) : Bool :=
  strIncludes (strToLower hay) (strToLower pat)

/-- `DatabaseStorage.searchRegistrants` (src/server/storage.ts lines 153-166):
`where (name ILIKE '%q.toLowerCase()%' OR bib = (parseInt(q) || -1))
order by created_at desc`. -/
def dbSearchRegistrants (rows : List Registrant) (query : String) :
    List Registrant :=
  let searchTerm := strToLower query
  sortByCreatedDesc (rows.filter (fun r =>
    ilikeContains r.name searchTerm || ((r.bib : Int) == parseIntOrNeg1 query)))

/-! ### Admin seeding and bcrypt -/

/-- `bcrypt.hash(pw, 10)`: a modular-crypt-format digest string.  The 22+31
characters of salt and checksum depend on bcrypt's internal randomness and are
abstracted as a parameter; every output of this bcrypt version starts with the
literal header `$2b$10$`. -/
def bcryptHash (_pw : String) (saltChecksum : String) : String :=
  "$2b$10$" ++ saltChecksum

/-- `DatabaseStorage.seedAdminUser` (src/server/storage.ts lines 56-74):
insert a `john` row with a bcrypt-hashed `batata123` password unless a `john`
row already exists.  `newId` is the injected generated primary key. -/
def seedAdminUser (admins : List AdminUser) (newId : String)
    (saltChecksum : String) : List AdminUser :=
  if admins.any (fun a => a.username == "john") then admins
  else admins ++ [⟨newId, "john", bcryptHash "batata123" saltChecksum⟩]

/-! ### Route handlers (src/server/routes.ts) -/

/-- The express session, as the handlers see it: `(req.session as any)?.adminId`. -/
structure Session where
  adminId : Option String
deriving Repr, DecidableEq

/-- Truthiness of `(req.session as any)?.adminId`. -/
def sessionAuthed (sess : Session) : Bool :=
  match sess.adminId with
  | some a => strTruthy a
  | none => false

/-- Body field lookup (`req.body.field`). -/
def lookupField (body : List (String × Jval)) (k : String) : Option Jval :=
  (body.find? (fun p => p.1 == k)).map (fun p => p.2)

/-- `insertRegistrantSchema.parse(req.body)`:
`createInsertSchema(registrants).pick({ name: true })` is a zod object whose
only field is the required string `name`; unknown body keys are stripped, a
missing or non-string `name` fails.  No other constraint is applied. -/
def parseInsertRegistrant (body : List (String × Jval)) :
    Except String InsertRegistrant :=
  match lookupField body "name" with
  | some (Jval.str s) => .ok ⟨s⟩
  | _ => .error "ValidationError"

/-- `updatePaymentStatusSchema.parse({ id, payment_status })`: `id` is the
(always string) route parameter, `payment_status` must be one of the enum
`["pendente", "confirmado"]`. -/
def parseUpdatePaymentStatus (idParam : String) (body : List (String × Jval)) :
    Except String (String × String) :=
  match lookupField body "payment_status" with
  | some (Jval.str st) =>
    if st == "pendente" || st == "confirmado" then .ok (idParam, st)
    else .error "ValidationError"
  | _ => .error "ValidationError"

/-- Outcome of `POST /api/registrants`; `noResponse` models the request never
completing because the in-memory allocator loop is still running. -/
inductive PostResult where
  | created (r : Registrant)
  | badRequest (msg : String)
  | noResponse
deriving Repr, DecidableEq

/-- `POST /api/registrants` (src/server/routes.ts lines 38-50) over the
in-memory store. -/
def postRegistrantsHandler (body : List (String × Jval)) (s : MemStorage)
    (id : String) (now : Nat) (stream : Nat → Nat) (fuel : Nat) :
    PostResult × MemStorage :=
  match parseInsertRegistrant body with
  | .error msg => (.badRequest msg, s)
  | .ok ins =>
    match s.createRegistrant ins id now stream fuel with
    | none => (.noResponse, s)
    | some (r, s2) => (.created r, s2)

/-- Outcome of `PATCH /api/registrants/:id/payment-status`. -/
inductive PatchResult where
  | ok (r : Registrant)
  | notFound
  | badRequest (msg : String)
deriving Repr, DecidableEq

/-- `PATCH /api/registrants/:id/payment-status` (src/server/routes.ts lines
52-74).  Note: unlike the delete and export handlers, this handler never
inspects the session; `sess` is bound only to exhibit that. -/
def patchPaymentStatusHandler (_sess : Session) (idParam : String)
    (body : List (String × Jval)) (s : MemStorage) : PatchResult × MemStorage :=
  match parseUpdatePaymentStatus idParam body with
  | .error msg => (.badRequest msg, s)
  | .ok (id, status) =>
    match s.updatePaymentStatus id status with
    | (none, s2) => (.notFound, s2)
    | (some r, s2) => (.ok r, s2)

/-- Outcome of `DELETE /api/registrants`. -/
inductive DeleteResult where
  | cleared
  | unauthorized
deriving Repr, DecidableEq

/-- `DELETE /api/registrants` (src/server/routes.ts lines 76-88): rejects the
request as 401 when `(req.session as any)?.adminId` is falsy. -/
def deleteRegistrantsHandler (sess : Session) (s : MemStorage) :
    DeleteResult × MemStorage :=
  if sessionAuthed sess then (.cleared, s.clearAllRegistrants)
  else (.unauthorized, s)

/-- Outcome of `POST /api/auth/login`. -/
inductive LoginResult where
  | success (adminId : String) (username : String)
  | badRequest
  | invalidCredentials
deriving Repr, DecidableEq

/-- `POST /api/auth/login` (src/server/routes.ts lines 117-136): 400 on a
falsy username or password, then `getAdminByUsername`, then the literal
comparison `admin.password !== password` — no bcrypt comparison. -/
def loginHandler (admins : List AdminUser) (username password : String) :
    LoginResult :=
  if !strTruthy username || !strTruthy password then .badRequest
  else
    match getAdminByUsername admins username with
    | none => .invalidCredentials
    | some admin =>
      if admin.password != password then .invalidCredentials
      else .success admin.id admin.username

/-- The aggregate of `GET /api/stats`. -/
structure Stats where
  total : Nat
  confirmed : Nat
  pending : Nat
deriving Repr, DecidableEq

/-- `GET /api/stats` (src/server/routes.ts lines 157-168). -/
def statsHandler (s : MemStorage) : Stats :=
  let regs := s.getRegistrants
  ⟨regs.length,
   (regs.filter (fun r => r.payment_status == "confirmado")).length,
   (regs.filter (fun r => r.payment_status == "pendente")).length⟩

/-! ### Reachable store states -/

/-- Store states reachable from the fresh store through the exposed mutating
endpoints: intake POST, status PATCH and bulk DELETE (the remaining endpoints
are read-only). -/
inductive Reachable : MemStorage → Prop where
  | init : Reachable MemStorage.empty
  | post (s : MemStorage) (body : List (String × Jval)) (id : String)
      (now : Nat) (stream : Nat → Nat) (fuel : Nat) :
      Reachable s → Reachable (postRegistrantsHandler body s id now stream fuel).2
  | patch (s : MemStorage) (sess : Session) (idParam : String)
      (body : List (String × Jval)) :
      Reachable s → Reachable (patchPaymentStatusHandler sess idParam body s).2
  | del (s : MemStorage) (sess : Session) :
      Reachable s → Reachable (deleteRegistrantsHandler sess s).2

/-- The values of the registrants map, in insertion order. -/
def vals (m : List (String × Registrant)) : List Registrant :=
  m.map (fun p => p.2)

/-- The keys of the registrants map, in insertion order. -/
def keys (m : List (String × Registrant)) : List String :=
  m.map (fun p => p.1)

/-- The store invariant maintained by every exposed operation. -/
structure StoreInv (s : MemStorage) : Prop where
  keysNodup : (keys s.registrants).Nodup
  bibsInUsed : ∀ r ∈ vals s.registrants, r.bib ∈ s.usedBibNumbers
  bibsNodup : ((vals s.registrants).map Registrant.bib).Nodup
  usedRange : ∀ b ∈ s.usedBibNumbers, 1 ≤ b ∧ b ≤ 999
  statusOK : ∀ r ∈ vals s.registrants,
    r.payment_status = "pendente" ∨ r.payment_status = "confirmado"

/-! ### Allocator lemmas -/

theorem drawBib_mem_range (r : Nat) : 1 ≤ drawBib r ∧ drawBib r ≤ 999 := by
  unfold drawBib
  have : r % 999 < 999 := Nat.mod_lt _ (by norm_num)
  omega

theorem memGenBib_some_spec (stream : Nat → Nat) (used : List Nat) :
    ∀ fuel i bib, memGenBib stream used i fuel = some bib →
      (1 ≤ bib ∧ bib ≤ 999) ∧ bib ∉ used := by
  intro fuel
  induction fuel with
  | zero => intro i bib h; simp [memGenBib] at h
  | succ n ih =>
    intro i bib h
    simp only [memGenBib] at h
    split at h
    · exact ih _ _ h
    · rename_i hc
      obtain rfl := Option.some.inj h
      refine ⟨drawBib_mem_range _, fun hmem => hc ?_⟩
      simpa using hmem

theorem dbGenBibGo_ok_spec (stream : Nat → Nat) (used : List Nat) :
    ∀ n i bib, dbGenBibGo stream used i n = .ok bib →
      (1 ≤ bib ∧ bib ≤ 999) ∧ bib ∉ used := by
  intro n
  induction n with
  | zero => intro i bib h; simp [dbGenBibGo] at h
  | succ n ih =>
    intro i bib h
    simp only [dbGenBibGo] at h
    split at h
    · exact ih _ _ h
    · rename_i hc
      obtain rfl := Except.ok.inj h
      refine ⟨drawBib_mem_range _, fun hmem => hc ?_⟩
      simpa using hmem

theorem memGenBib_saturated (stream : Nat → Nat) (used : List Nat)
    (hsat : ∀ b, 1 ≤ b → b ≤ 999 → b ∈ used) :
    ∀ fuel i, memGenBib stream used i fuel = none := by
  intro fuel
  induction fuel with
  | zero => intro i; rfl
  | succ n ih =>
    intro i
    have hb := drawBib_mem_range (stream i)
    have hc : used.contains (drawBib (stream i)) = true := by
      simpa using hsat _ hb.1 hb.2
    simp only [memGenBib, hc, if_true]
    exact ih _

theorem dbGenBibGo_saturated (stream : Nat → Nat) (used : List Nat)
    (hsat : ∀ b, 1 ≤ b → b ≤ 999 → b ∈ used) :
    ∀ n i, dbGenBibGo stream used i n = .error .allocationExhausted := by
  intro n
  induction n with
  | zero => intro i; rfl
  | succ n ih =>
    intro i
    have hb := drawBib_mem_range (stream i)
    have hc : used.contains (drawBib (stream i)) = true := by
      simpa using hsat _ hb.1 hb.2
    simp only [dbGenBibGo, hc, if_true]
    exact ih _

/-! ### Association-list (JS Map) lemmas -/

theorem mapSet_nil (k : String) (v : Registrant) : mapSet [] k v = [(k, v)] := rfl

theorem mapSet_cons_ne (k₀ : String) (r₀ : Registrant)
    (rest : List (String × Registrant)) (k : String) (v : Registrant)
    (h : ¬ k₀ = k) :
    mapSet ((k₀, r₀) :: rest) k v = (k₀, r₀) :: mapSet rest k v := by
  have hbeq : (k₀ == k) = false := by simpa using h
  by_cases hany : rest.any (fun p => p.1 == k) = true <;>
    simp [mapSet, hany, hbeq, h]

theorem mapSet_cons_eq (k : String) (r₀ v : Registrant)
    (rest : List (String × Registrant)) (h : k ∉ keys rest) :
    mapSet ((k, r₀) :: rest) k v = (k, v) :: rest := by
  have hany : (((k, r₀) :: rest).any (fun p => p.1 == k)) = true := by simp
  have hmap : rest.map (fun p => if p.1 = k then (k, v) else p) = rest := by
    conv_rhs => rw [← List.map_id rest]
    apply List.map_congr_left
    intro p hp
    have hpk : ¬ p.1 = k := fun hpk =>
      h (by simpa [keys, ← hpk] using List.mem_map_of_mem (fun q => q.1) hp)
    simp [hpk]
  simp [mapSet, hany, hmap]

theorem vals_cons (k₀ : String) (r₀ : Registrant)
    (rest : List (String × Registrant)) :
    vals ((k₀, r₀) :: rest) = r₀ :: vals rest := rfl

theorem keys_cons (k₀ : String) (r₀ : Registrant)
    (rest : List (String × Registrant)) :
    keys ((k₀, r₀) :: rest) = k₀ :: keys rest := rfl

theorem mem_vals_mapSet {m : List (String × Registrant)} {k : String}
    {v r : Registrant} (h : r ∈ vals (mapSet m k v)) : r ∈ vals m ∨ r = v := by
  unfold mapSet at h
  split at h
  · simp only [vals, List.map_map, List.mem_map, Function.comp] at h
    obtain ⟨p, hp, hval⟩ := h
    by_cases hpk : (p.1 == k) = true
    · right
      simp only [hpk, if_true] at hval
      exact hval.symm
    · left
      simp only [Bool.not_eq_true] at hpk
      simp only [hpk, Bool.false_eq_true, if_false] at hval
      exact hval ▸ List.mem_map_of_mem _ hp
  · simp only [vals, List.map_append, List.mem_append, List.map_cons,
      List.map_nil, List.mem_singleton] at h
    exact h

theorem keys_mapSet_present {m : List (String × Registrant)} {k : String}
    {v : Registrant} (h : m.any (fun p => p.1 == k) = true) :
    keys (mapSet m k v) = keys m := by
  simp only [mapSet, h, if_true, keys, List.map_map]
  apply List.map_congr_left
  intro p _
  by_cases hpk : (p.1 == k) = true
  · simp only [Function.comp, hpk, if_true]
    exact (eq_of_beq hpk).symm
  · simp only [Bool.not_eq_true] at hpk
    simp [Function.comp, hpk]

theorem keys_mapSet_absent {m : List (String × Registrant)} {k : String}
    {v : Registrant} (h : m.any (fun p => p.1 == k) = false) :
    keys (mapSet m k v) = keys m ++ [k] := by
  simp [mapSet, h, keys]

theorem keys_mapSet_nodup {m : List (String × Registrant)} {k : String}
    {v : Registrant} (h : (keys m).Nodup) : (keys (mapSet m k v)).Nodup := by
  by_cases hany : m.any (fun p => p.1 == k) = true
  · rw [keys_mapSet_present hany]; exact h
  · have hfalse : m.any (fun p => p.1 == k) = false := by
      cases hh : m.any (fun p => p.1 == k)
      · rfl
      · exact absurd hh hany
    rw [keys_mapSet_absent hfalse]
    have hk : k ∉ keys m := by
      intro hkmem
      simp only [keys, List.mem_map] at hkmem
      obtain ⟨p, hp, hpk⟩ := hkmem
      have := List.any_eq_false.mp hfalse p hp
      simp [hpk] at this
    simp [List.nodup_append, h, hk]

theorem mapGet_mapSet_self (m : List (String × Registrant)) (k : String)
    (v : Registrant) : mapGet (mapSet m k v) k = some v := by
  induction m with
  | nil => simp [mapSet, mapGet]
  | cons p rest ih =>
    obtain ⟨k₀, r₀⟩ := p
    by_cases hk : k₀ = k
    · subst hk
      have hany : (((k₀, r₀) :: rest).any (fun p => p.1 == k₀)) = true := by simp
      simp [mapSet, hany, mapGet]
    · rw [mapSet_cons_ne _ _ _ _ _ hk]
      have hbeq : (k₀ == k) = false := by simpa using hk
      simpa [mapGet, List.find?_cons, hbeq] using ih

theorem find?_replace_ne (rest : List (String × Registrant)) (k k' : String)
    (v : Registrant) (h : ¬ k' = k) :
    (rest.map (fun p => if p.1 == k then (k, v) else p)).find?
        (fun p => p.1 == k') =
      rest.find? (fun p => p.1 == k') := by
  induction rest with
  | nil => rfl
  | cons p t ih =>
    by_cases hpk : (p.1 == k) = true
    · have hkk' : ((k : String) == k') = false := by
        simpa using fun hh => h hh.symm
      have hpk' : (p.1 == k') = false := by
        have := eq_of_beq hpk
        simpa [this] using fun hh => h hh.symm
      rw [List.map_cons, if_pos hpk]
      simp only [List.find?_cons, hkk', hpk']
      exact ih
    · have hpkf : (p.1 == k) = false := by
        cases hh : (p.1 == k)
        · rfl
        · exact absurd hh hpk
      rw [List.map_cons, if_neg (by simp [hpkf])]
      cases hh : (p.1 == k') with
      | true => simp [List.find?_cons, hh]
      | false => simpa [List.find?_cons, hh] using ih

theorem mapGet_mapSet_ne (m : List (String × Registrant)) (k k' : String)
    (v : Registrant) (h : ¬ k' = k) :
    mapGet (mapSet m k v) k' = mapGet m k' := by
  induction m with
  | nil =>
    have : ((k : String) == k') = false := by simpa using fun hh => h hh.symm
    simp [mapSet, mapGet, List.find?_cons, this]
  | cons p rest ih =>
    obtain ⟨k₀, r₀⟩ := p
    by_cases hk : k₀ = k
    · subst hk
      have hany : (((k₀, r₀) :: rest).any (fun q => q.1 == k₀)) = true := by simp
      have hkk' : ((k₀ : String) == k') = false := by
        simpa using fun hh => h hh.symm
      simp only [mapSet, hany, if_true, List.map_cons, beq_self_eq_true,
        mapGet, List.find?_cons, hkk', Bool.false_eq_true, if_false]
      rw [find?_replace_ne _ _ _ _ h]
    · rw [mapSet_cons_ne _ _ _ _ _ hk]
      simp only [mapGet, List.find?_cons]
      cases hh : (k₀ == k')
      · simpa [hh] using ih
      · simp [hh]

theorem mapGet_mem_vals {m : List (String × Registrant)} {k : String}
    {r : Registrant} (h : mapGet m k = some r) : r ∈ vals m := by
  unfold mapGet at h
  cases hfind : m.find? (fun q => q.1 == k) with
  | none => simp [hfind] at h
  | some p =>
    have hp : p ∈ m := List.mem_of_find?_eq_some hfind
    have : p.2 = r := by simpa [hfind] using h
    exact this ▸ List.mem_map_of_mem _ hp

theorem bibs_mapSet_fresh {m : List (String × Registrant)} {used : List Nat}
    {k : String} {v : Registrant}
    (hkeys : (keys m).Nodup)
    (hsub : ∀ r ∈ vals m, r.bib ∈ used)
    (hnd : ((vals m).map Registrant.bib).Nodup)
    (hv : v.bib ∉ used) :
    ((vals (mapSet m k v)).map Registrant.bib).Nodup := by
  induction m with
  | nil => simp [mapSet, vals]
  | cons p rest ih =>
    obtain ⟨k₀, r₀⟩ := p
    rw [keys_cons, List.nodup_cons] at hkeys
    rw [vals_cons, List.map_cons, List.nodup_cons] at hnd
    by_cases hk : k₀ = k
    · subst hk
      rw [mapSet_cons_eq _ _ _ _ hkeys.1]
      rw [vals_cons, List.map_cons, List.nodup_cons]
      refine ⟨fun hmem => ?_, hnd.2⟩
      simp only [List.mem_map] at hmem
      obtain ⟨r', hr', hb⟩ := hmem
      exact hv (hb ▸ hsub r' (by simp [vals_cons, hr']))
    · rw [mapSet_cons_ne _ _ _ _ _ hk]
      rw [vals_cons, List.map_cons, List.nodup_cons]
      refine ⟨fun hmem => ?_,
        ih hkeys.2 (fun r hr => hsub r (by simp [vals_cons, hr])) hnd.2⟩
      simp only [List.mem_map] at hmem
      obtain ⟨r', hr', hb⟩ := hmem
      rcases mem_vals_mapSet hr' with hin | rfl
      · exact hnd.1 (hb ▸ List.mem_map_of_mem _ hin)
      · exact hv (hb ▸ hsub r₀ (by simp [vals_cons]))

theorem bibs_mapSet_same {m : List (String × Registrant)} {k : String}
    {r0 v : Registrant}
    (hkeys : (keys m).Nodup) (hget : mapGet m k = some r0)
    (hbib : v.bib = r0.bib) :
    (vals (mapSet m k v)).map Registrant.bib =
      (vals m).map Registrant.bib := by
  induction m with
  | nil => simp [mapGet] at hget
  | cons p rest ih =>
    obtain ⟨k₀, r₀⟩ := p
    rw [keys_cons, List.nodup_cons] at hkeys
    by_cases hk : k₀ = k
    · subst hk
      rw [mapSet_cons_eq _ _ _ _ hkeys.1]
      have hr : r₀ = r0 := by
        simpa [mapGet, List.find?_cons] using hget
      simp [vals_cons, hbib, hr]
    · rw [mapSet_cons_ne _ _ _ _ _ hk]
      have hbeq : (k₀ == k) = false := by simpa using hk
      have hget' : mapGet rest k = some r0 := by
        simpa [mapGet, List.find?_cons, hbeq] using hget
      simp [vals_cons, ih hkeys.2 hget']

/-! ### Invariant preservation -/

theorem storeInv_empty : StoreInv MemStorage.empty := by
  constructor <;> simp [MemStorage.empty, vals, keys]

theorem storeInv_post {s : MemStorage} (hs : StoreInv s)
    (body : List (String × Jval)) (id : String) (now : Nat)
    (stream : Nat → Nat) (fuel : Nat) :
    StoreInv (postRegistrantsHandler body s id now stream fuel).2 := by
  unfold postRegistrantsHandler
  cases hparse : parseInsertRegistrant body with
  | error msg => exact hs
  | ok ins =>
    unfold MemStorage.createRegistrant
    cases hgen : memGenBib stream s.usedBibNumbers 0 fuel with
    | none => exact hs
    | some bib =>
      obtain ⟨⟨hb1, hb2⟩, hbnotin⟩ :=
        memGenBib_some_spec stream s.usedBibNumbers fuel 0 bib hgen
      constructor
      · exact keys_mapSet_nodup hs.keysNodup
      · intro r hr
        rcases mem_vals_mapSet hr with hin | rfl
        · exact List.mem_append_left _ (hs.bibsInUsed r hin)
        · simp
      · exact bibs_mapSet_fresh hs.keysNodup hs.bibsInUsed hs.bibsNodup hbnotin
      · intro b hb
        rcases List.mem_append.mp hb with h1 | h2
        · exact hs.usedRange b h1
        · simp only [List.mem_singleton] at h2
          subst h2
          exact ⟨hb1, hb2⟩
      · intro r hr
        rcases mem_vals_mapSet hr with hin | rfl
        · exact hs.statusOK r hin
        · left; rfl

theorem parseUpdatePaymentStatus_enum {idParam : String}
    {body : List (String × Jval)} {id status : String}
    (h : parseUpdatePaymentStatus idParam body = .ok (id, status)) :
    id = idParam ∧ (status = "pendente" ∨ status = "confirmado") := by
  unfold parseUpdatePaymentStatus at h
  cases hl : lookupField body "payment_status" with
  | none => simp [hl] at h
  | some jv =>
    cases jv with
    | str st =>
      simp only [hl] at h
      split at h
      · rename_i hcond
        obtain ⟨rfl, rfl⟩ := Prod.mk.injEq .. ▸ Except.ok.inj h
        rcases Bool.or_eq_true _ _ |>.mp hcond with h1 | h2
        · exact ⟨rfl, Or.inl (eq_of_beq h1)⟩
        · exact ⟨rfl, Or.inr (eq_of_beq h2)⟩
      · simp at h
    | num n => simp [hl] at h
    | null => simp [hl] at h

theorem updatePaymentStatus_eq_some {s : MemStorage} {id : String}
    {r : Registrant} (h : mapGet s.registrants id = some r) (status : String) :
    s.updatePaymentStatus id status =
      (some { r with payment_status := status },
       ⟨mapSet s.registrants id { r with payment_status := status },
        s.usedBibNumbers⟩) := by
  unfold MemStorage.updatePaymentStatus
  rw [h]

theorem updatePaymentStatus_eq_none {s : MemStorage} {id : String}
    (h : mapGet s.registrants id = none) (status : String) :
    s.updatePaymentStatus id status = (none, s) := by
  unfold MemStorage.updatePaymentStatus
  rw [h]

theorem patchHandler_eq_error {sess : Session} {idParam : String}
    {body : List (String × Jval)} {s : MemStorage} {msg : String}
    (h : parseUpdatePaymentStatus idParam body = .error msg) :
    patchPaymentStatusHandler sess idParam body s = (.badRequest msg, s) := by
  unfold patchPaymentStatusHandler
  rw [h]

theorem patchHandler_eq_ok {sess : Session} {idParam : String}
    {body : List (String × Jval)} {s : MemStorage} {id status : String}
    (h : parseUpdatePaymentStatus idParam body = .ok (id, status)) :
    patchPaymentStatusHandler sess idParam body s =
      match s.updatePaymentStatus id status with
      | (none, s2) => (PatchResult.notFound, s2)
      | (some r, s2) => (PatchResult.ok r, s2) := by
  unfold patchPaymentStatusHandler
  rw [h]

theorem storeInv_patch {s : MemStorage} (hs : StoreInv s) (sess : Session)
    (idParam : String) (body : List (String × Jval)) :
    StoreInv (patchPaymentStatusHandler sess idParam body s).2 := by
  cases hparse : parseUpdatePaymentStatus idParam body with
  | error msg =>
    rw [patchHandler_eq_error hparse]
    exact hs
  | ok pr =>
    obtain ⟨id, status⟩ := pr
    have hstatus := (parseUpdatePaymentStatus_enum hparse).2
    rw [patchHandler_eq_ok hparse]
    cases hget : mapGet s.registrants id with
    | none =>
      rw [updatePaymentStatus_eq_none hget]
      exact hs
    | some r =>
      rw [updatePaymentStatus_eq_some hget]
      show StoreInv ⟨mapSet s.registrants id { r with payment_status := status },
        s.usedBibNumbers⟩
      constructor
      · exact keys_mapSet_nodup hs.keysNodup
      · intro r' hr'
        rcases mem_vals_mapSet hr' with hin | rfl
        · exact hs.bibsInUsed r' hin
        · exact hs.bibsInUsed r (mapGet_mem_vals hget)
      · show (List.map Registrant.bib
            (vals (mapSet s.registrants id
              { r with payment_status := status }))).Nodup
        rw [bibs_mapSet_same (v := { r with payment_status := status })
          hs.keysNodup hget rfl]
        exact hs.bibsNodup
      · exact hs.usedRange
      · intro r' hr'
        rcases mem_vals_mapSet hr' with hin | rfl
        · exact hs.statusOK r' hin
        · exact hstatus

theorem storeInv_del {s : MemStorage} (hs : StoreInv s) (sess : Session) :
    StoreInv (deleteRegistrantsHandler sess s).2 := by
  unfold deleteRegistrantsHandler
  by_cases hauth : sessionAuthed sess = true
  · simp only [hauth, if_true]
    constructor <;> simp [MemStorage.clearAllRegistrants, vals, keys]
  · simp only [hauth, Bool.false_eq_true, if_neg, if_false]
    exact hs

theorem reachable_storeInv {s : MemStorage} (h : Reachable s) : StoreInv s := by
  induction h with
  | init => exact storeInv_empty
  | post s body id now stream fuel _ ih =>
    exact storeInv_post ih body id now stream fuel
  | patch s sess idParam body _ ih => exact storeInv_patch ih sess idParam body
  | del s sess _ ih => exact storeInv_del ih sess

/-! ### Listing and stats helpers -/

theorem getRegistrants_perm (s : MemStorage) :
    (MemStorage.getRegistrants s).Perm (vals s.registrants) :=
  List.perm_insertionSort _ _

theorem countP_status_partition (l : List Registrant)
    (h : ∀ r ∈ l,
      r.payment_status = "pendente" ∨ r.payment_status = "confirmado") :
    l.length = l.countP (fun r => r.payment_status == "confirmado") +
      l.countP (fun r => r.payment_status == "pendente") := by
  induction l with
  | nil => rfl
  | cons r t ih =>
    have ht := ih (fun x hx => h x (List.mem_cons_of_mem _ hx))
    rw [List.length_cons, List.countP_cons, List.countP_cons, ht]
    rcases h r (List.mem_cons_self _ _) with hp | hc
    · simp [hp]
      omega
    · simp [hc]
      omega

/-- The saturated bib set: every number in `[1, 999]` is taken. -/
def fullBibs : List Nat := List.range' 1 999

theorem fullBibs_complete : ∀ b, 1 ≤ b → b ≤ 999 → b ∈ fullBibs := by
  intro b h1 h2
  unfold fullBibs
  rw [List.mem_range'_1]
  omega

/-! ### DatabaseStorage update lemmas -/

theorem dbFind_after_update (rows : List Registrant) (id status : String) :
    (rows.map (fun r =>
        if r.id == id then { r with payment_status := status } else r)).find?
        (fun r => r.id == id) =
      (rows.find? (fun r => r.id == id)).map
        (fun r => { r with payment_status := status }) := by
  induction rows with
  | nil => rfl
  | cons r t ih =>
    by_cases h : (r.id == id) = true
    · rw [List.map_cons, if_pos h]
      simp only [List.find?_cons, h]
      rfl
    · have hf : (r.id == id) = false := by
        cases hh : (r.id == id)
        · rfl
        · exact absurd hh h
      rw [List.map_cons, if_neg (by simp [hf])]
      simp only [List.find?_cons, hf]
      exact ih

theorem dbUpdate_map_id (rows : List Registrant) (id status : String)
    (h : rows.find? (fun r => r.id == id) = none) :
    rows.map (fun r =>
        if r.id == id then { r with payment_status := status } else r) =
      rows := by
  conv_rhs => rw [← List.map_id rows]
  apply List.map_congr_left
  intro r hr
  have := List.find?_eq_none.mp h r hr
  simp at this
  simp [this]

/-! ### The search predicate as the spec states it -/

/-- The search predicate in the spec's words: case-insensitive substring match
on the name, OR substring match on the bib number rendered as a decimal
string. -/
def searchSpecMatch (query : String) (r : Registrant) : Bool :=
  strIncludes (strToLower r.name) (strToLower query) ||
  strIncludes (toString r.bib) query

/-! ### Concrete stores for witnesses and counterexamples -/

/-- A concrete registrant used by witnesses. -/
def regR1 : Registrant := ⟨"r1", "Maria", 7, 0, "pendente"⟩

/-- `regR1` after confirmation. -/
def regR1conf : Registrant := { regR1 with payment_status := "confirmado" }

/-- A concrete one-registrant store used by witnesses. -/
def regStore : MemStorage := ⟨[("r1", regR1)], [7]⟩

/-- A registrant whose bib, rendered as the string `"142"`, contains `"42"`. -/
def reg142 : Registrant := ⟨"r2", "x", 142, 0, "pendente"⟩

/-- The registrant created by the example intake request (draw 41 gives
bib 42). -/
def exampleReg : Registrant := ⟨"id1", "Maria", 42, 0, "pendente"⟩

/-- The store produced by one successful intake request on the fresh store. -/
def exampleStore : MemStorage :=
  (postRegistrantsHandler [("name", Jval.str "Maria")] MemStorage.empty "id1" 0
    (fun _ => 41) 1).2

theorem exampleStore_reachable : Reachable exampleStore :=
  Reachable.post MemStorage.empty [("name", Jval.str "Maria")] "id1" 0
    (fun _ => 41) 1 Reachable.init

/-! ### Claim theorems -/

/-- C1: in every store state reachable through the exposed operations, the
assigned bib numbers are pairwise distinct and lie in `[1, 999]`; and every
successful create call returns a bib in `[1, 999]` that differs from the bib
of every still-active registrant created earlier. -/
theorem c1_bib_uniqueness :
    (∀ s, Reachable s →
      ((vals s.registrants).map Registrant.bib).Nodup ∧
      ∀ r ∈ vals s.registrants, 1 ≤ r.bib ∧ r.bib ≤ 999) ∧
    (∀ (s : MemStorage) ins id now stream fuel r s2, Reachable s →
      s.createRegistrant ins id now stream fuel = some (r, s2) →
      (1 ≤ r.bib ∧ r.bib ≤ 999) ∧ ∀ r' ∈ vals s.registrants, r'.bib ≠ r.bib) := by
  constructor
  · intro s hs
    have inv := reachable_storeInv hs
    exact ⟨inv.bibsNodup,
      fun r hr => inv.usedRange r.bib (inv.bibsInUsed r hr)⟩
  · intro s ins id now stream fuel r s2 hs hcreate
    have inv := reachable_storeInv hs
    unfold MemStorage.createRegistrant at hcreate
    cases hgen : memGenBib stream s.usedBibNumbers 0 fuel with
    | none =>
      rw [hgen] at hcreate
      exact absurd hcreate (by simp)
    | some bib =>
      rw [hgen] at hcreate
      obtain ⟨hrange, hnotin⟩ :=
        memGenBib_some_spec stream s.usedBibNumbers fuel 0 bib hgen
      have hr : r = ⟨id, ins.name, bib, now, "pendente"⟩ :=
        (congrArg Prod.fst (Option.some.inj hcreate)).symm
      subst hr
      refine ⟨hrange, fun r' hr' hbib => hnotin ?_⟩
      have hb' : r'.bib = bib := hbib
      exact hb' ▸ inv.bibsInUsed r' hr'

theorem c1_bib_uniqueness_witness :
    (1 ≤ exampleReg.bib ∧ exampleReg.bib ≤ 999) ∧
    ((vals exampleStore.registrants).map Registrant.bib).Nodup :=
  ⟨(c1_bib_uniqueness.2 MemStorage.empty ⟨"Maria"⟩ "id1" 0 (fun _ => 41) 1
      exampleReg exampleStore Reachable.init rfl).1,
   (c1_bib_uniqueness.1 exampleStore exampleStore_reachable).1⟩

/-- C10: in every store state reachable through the exposed operations, every
registrant's payment_status is either `"pendente"` or `"confirmado"`, and the
stats endpoint reports `total = confirmed + pending`. -/
theorem c10_status_enum_and_stats (s : MemStorage) (h : Reachable s) :
    (∀ r ∈ vals s.registrants,
      r.payment_status = "pendente" ∨ r.payment_status = "confirmado") ∧
    (statsHandler s).total = (statsHandler s).confirmed + (statsHandler s).pending := by
  have inv := reachable_storeInv h
  refine ⟨inv.statusOK, ?_⟩
  have hperm := getRegistrants_perm s
  have hstat : ∀ r ∈ MemStorage.getRegistrants s,
      r.payment_status = "pendente" ∨ r.payment_status = "confirmado" :=
    fun r hr => inv.statusOK r (hperm.mem_iff.mp hr)
  show (MemStorage.getRegistrants s).length =
    ((MemStorage.getRegistrants s).filter
      (fun r => r.payment_status == "confirmado")).length +
    ((MemStorage.getRegistrants s).filter
      (fun r => r.payment_status == "pendente")).length
  rw [← List.countP_eq_length_filter, ← List.countP_eq_length_filter]
  exact countP_status_partition _ hstat

theorem c10_status_enum_and_stats_witness :
    (statsHandler exampleStore).total =
      (statsHandler exampleStore).confirmed +
      (statsHandler exampleStore).pending :=
  (c10_status_enum_and_stats exampleStore exampleStore_reachable).2

/-- C8: for an id present in the store, `updatePaymentStatus(id, "confirmado")`
returns the record with `payment_status = "confirmado"` and a subsequent
`getRegistrantById id` sees it; for an id not present, it returns the
not-found result and leaves the store (or table) unchanged.  Stated for both
`MemStorage` and the `DatabaseStorage` row-level queries. -/
theorem c8_update_then_find (s : MemStorage) (id : String) :
    (∀ r, s.getRegistrantById id = some r →
      (s.updatePaymentStatus id "confirmado").1 =
          some { r with payment_status := "confirmado" } ∧
      ((s.updatePaymentStatus id "confirmado").2).getRegistrantById id =
          some { r with payment_status := "confirmado" }) ∧
    (s.getRegistrantById id = none →
      s.updatePaymentStatus id "confirmado" = (none, s)) ∧
    (∀ rows r, dbGetRegistrantById rows id = some r →
      (dbUpdatePaymentStatus rows id "confirmado").1 =
          some { r with payment_status := "confirmado" } ∧
      dbGetRegistrantById (dbUpdatePaymentStatus rows id "confirmado").2 id =
          some { r with payment_status := "confirmado" }) ∧
    (∀ rows, dbGetRegistrantById rows id = none →
      dbUpdatePaymentStatus rows id "confirmado" = (none, rows)) := by
  refine ⟨?_, ?_, ?_, ?_⟩
  · intro r hget
    rw [updatePaymentStatus_eq_some hget]
    exact ⟨rfl, mapGet_mapSet_self _ _ _⟩
  · intro hget
    exact updatePaymentStatus_eq_none hget _
  · intro rows r hget
    unfold dbGetRegistrantById at hget
    have h1 : (dbUpdatePaymentStatus rows id "confirmado").1 =
        some { r with payment_status := "confirmado" } := by
      show (rows.map (fun r =>
          if r.id == id then { r with payment_status := "confirmado" }
          else r)).find? (fun r => r.id == id) = _
      rw [dbFind_after_update, hget]
      rfl
    refine ⟨h1, ?_⟩
    show (rows.map (fun r =>
        if r.id == id then { r with payment_status := "confirmado" }
        else r)).find? (fun r => r.id == id) = _
    rw [dbFind_after_update, hget]
    rfl
  · intro rows hget
    unfold dbGetRegistrantById at hget
    have hmap := dbUpdate_map_id rows id "confirmado" hget
    show ((rows.map (fun r =>
        if r.id == id then { r with payment_status := "confirmado" }
        else r)).find? (fun r => r.id == id),
      rows.map (fun r =>
        if r.id == id then { r with payment_status := "confirmado" }
        else r)) = (none, rows)
    rw [hmap, hget]

theorem c8_update_then_find_witness :
    (regStore.updatePaymentStatus "r1" "confirmado").1 = some regR1conf ∧
    ((regStore.updatePaymentStatus "r1" "confirmado").2).getRegistrantById "r1" =
      some regR1conf ∧
    regStore.updatePaymentStatus "zz" "confirmado" = (none, regStore) ∧
    dbUpdatePaymentStatus [regR1] "zz" "confirmado" = (none, [regR1]) :=
  ⟨((c8_update_then_find regStore "r1").1 regR1 rfl).1,
   ((c8_update_then_find regStore "r1").1 regR1 rfl).2,
   (c8_update_then_find regStore "zz").2.1 rfl,
   (c8_update_then_find regStore "zz").2.2.2 [regR1] rfl⟩

/-- C9: `updatePaymentStatus` mutates only the `payment_status` field: the
updated record keeps its id, name, bib and created_at; every other key maps to
the same record as before; the used-bib set is untouched.  Stated for both
`MemStorage` and the `DatabaseStorage` row-level update. -/
theorem c9_update_frame (s : MemStorage) (id status : String) :
    (∀ r, s.getRegistrantById id = some r →
      ∃ r2, (s.updatePaymentStatus id status).1 = some r2 ∧
        ((s.updatePaymentStatus id status).2).getRegistrantById id = some r2 ∧
        r2.id = r.id ∧ r2.name = r.name ∧ r2.bib = r.bib ∧
        r2.created_at = r.created_at ∧ r2.payment_status = status) ∧
    (∀ k, ¬ k = id →
      ((s.updatePaymentStatus id status).2).getRegistrantById k =
        s.getRegistrantById k) ∧
    ((s.updatePaymentStatus id status).2).usedBibNumbers = s.usedBibNumbers ∧
    (∀ rows : List Registrant,
      ((dbUpdatePaymentStatus rows id status).2).map
          (fun r => (r.id, r.name, r.bib, r.created_at)) =
        rows.map (fun r => (r.id, r.name, r.bib, r.created_at))) := by
  refine ⟨?_, ?_, ?_, ?_⟩
  · intro r hget
    rw [updatePaymentStatus_eq_some hget]
    exact ⟨{ r with payment_status := status }, rfl,
      mapGet_mapSet_self _ _ _, rfl, rfl, rfl, rfl, rfl⟩
  · intro k hk
    cases hget : mapGet s.registrants id with
    | none => rw [updatePaymentStatus_eq_none hget]
    | some r =>
      rw [updatePaymentStatus_eq_some hget]
      exact mapGet_mapSet_ne _ _ _ _ hk
  · cases hget : mapGet s.registrants id with
    | none => rw [updatePaymentStatus_eq_none hget]
    | some r => rw [updatePaymentStatus_eq_some hget]
  · intro rows
    show (rows.map (fun r =>
        if r.id == id then { r with payment_status := status } else r)).map
          (fun r => (r.id, r.name, r.bib, r.created_at)) = _
    rw [List.map_map]
    apply List.map_congr_left
    intro r _
    by_cases h : (r.id == id) = true
    · simp [Function.comp, h]
    · have hf : (r.id == id) = false := by
        cases hh : (r.id == id)
        · rfl
        · exact absurd hh h
      simp [Function.comp, hf]

theorem c9_update_frame_witness :
    ((regStore.updatePaymentStatus "r1" "confirmado").2).getRegistrantById "zz" =
      regStore.getRegistrantById "zz" ∧
    ((regStore.updatePaymentStatus "r1" "confirmado").2).usedBibNumbers =
      regStore.usedBibNumbers :=
  ⟨(c9_update_frame regStore "r1" "confirmado").2.1 "zz" (by decide),
   (c9_update_frame regStore "r1" "confirmado").2.2.1⟩

/-- C2 counterexample: a PATCH to the status-update endpoint with no session at
all is not rejected — it succeeds and mutates the registrant's
payment_status. -/
theorem c2_unauth_patch_mutates :
    sessionAuthed ⟨none⟩ = false ∧
    (patchPaymentStatusHandler ⟨none⟩ "r1"
        [("payment_status", Jval.str "confirmado")] regStore).1 =
      .ok regR1conf ∧
    ((patchPaymentStatusHandler ⟨none⟩ "r1"
        [("payment_status", Jval.str "confirmado")] regStore).2).getRegistrantById
        "r1" = some regR1conf := by
  exact ⟨rfl, rfl, rfl⟩

/-- C2 amended: the status-update endpoint performs no authentication check —
its outcome and resulting store are independent of the session, and an
unauthenticated request with a valid payload and existing id does mutate the
record; by contrast the bulk-clear endpoint rejects a non-authenticated
session as Unauthorized before touching the store. -/
theorem c2_patch_ignores_session :
    (∀ sess sess' idParam body s,
      patchPaymentStatusHandler sess idParam body s =
        patchPaymentStatusHandler sess' idParam body s) ∧
    (∀ sess s, sessionAuthed sess = false →
      deleteRegistrantsHandler sess s = (.unauthorized, s)) := by
  constructor
  · intro sess sess' idParam body s
    rfl
  · intro sess s h
    unfold deleteRegistrantsHandler
    simp [h]

theorem c2_patch_ignores_session_witness :
    deleteRegistrantsHandler ⟨none⟩ regStore = (.unauthorized, regStore) :=
  c2_patch_ignores_session.2 ⟨none⟩ regStore rfl

/-- C3: after `DatabaseStorage.seedAdminUser` stores the bcrypt hash of
`batata123`, the login handler — which compares the stored hash to the
submitted plaintext with `!==` — rejects the documented credentials
`john` / `batata123` as invalid, for every salt the hash was produced with. -/
theorem c3_login_rejects_seeded_password (newId saltChecksum : String) :
    loginHandler (seedAdminUser [] newId saltChecksum) "john" "batata123" =
      .invalidCredentials := by
  have hseed : seedAdminUser [] newId saltChecksum =
      [⟨newId, "john", bcryptHash "batata123" saltChecksum⟩] := by
    unfold seedAdminUser
    simp
  rw [hseed]
  have hne : bcryptHash "batata123" saltChecksum ≠ "batata123" := by
    unfold bcryptHash
    intro hh
    have hd := congrArg String.data hh
    simp [String.data] at hd
  have hfind : getAdminByUsername
      [⟨newId, "john", bcryptHash "batata123" saltChecksum⟩] "john" =
      some ⟨newId, "john", bcryptHash "batata123" saltChecksum⟩ := by
    simp [getAdminByUsername, List.find?_cons]
  unfold loginHandler
  rw [if_neg (by decide), hfind]
  show (if ((⟨newId, "john", bcryptHash "batata123" saltChecksum⟩ :
        AdminUser).password != "batata123") = true
      then LoginResult.invalidCredentials
      else LoginResult.success newId "john") = LoginResult.invalidCredentials
  rw [if_pos (by simpa using hne)]

set_option maxRecDepth 4000 in
/-- C4 counterexample: on a store in which all 999 bibs are taken, the
`MemStorage` allocator is still looping after 200 draws — twice the
`DatabaseStorage` cap of 100 and beyond every cap in the spec's 5–100 range —
having raised no AllocationExhausted failure (its result type has no failure
case at all). -/
theorem c4_mem_allocator_unbounded :
    memGenBib (fun _ => 0) fullBibs 0 (2 * dbMaxAttempts) = none := by rfl

/-- C4 amended: only `DatabaseStorage`'s allocator is a bounded-retry function
(100 attempts, then an AllocationExhausted failure — in particular on a store
where all of 1..999 are taken it always fails); `MemStorage`'s allocator has
no attempt cap, and on a saturated store it never terminates, for any number
of iterations. -/
theorem c4_allocator_boundedness (used : List Nat)
    (h : ∀ b, 1 ≤ b → b ≤ 999 → b ∈ used) :
    (∀ stream, dbGenerateUniqueBibNumber stream used =
      .error .allocationExhausted) ∧
    (∀ stream i fuel, memGenBib stream used i fuel = none) :=
  ⟨fun stream => dbGenBibGo_saturated stream used h dbMaxAttempts 0,
   fun stream i fuel => memGenBib_saturated stream used h fuel i⟩

theorem c4_allocator_boundedness_witness :
    dbGenerateUniqueBibNumber (fun _ => 0) fullBibs =
      .error .allocationExhausted ∧
    memGenBib (fun _ => 0) fullBibs 0 300 = none :=
  ⟨(c4_allocator_boundedness fullBibs fullBibs_complete).1 (fun _ => 0),
   (c4_allocator_boundedness fullBibs fullBibs_complete).2 (fun _ => 0) 0 300⟩

/-- C5 counterexample: the registrant with bib 142 renders as `"142"`, which
contains `"42"` — by the claim, `search("42")` must return it — yet
`DatabaseStorage.searchRegistrants` (the storage the routes use) returns
nothing, because it compares the bib for equality with `parseInt("42")`. -/
theorem c5_db_search_not_substring :
    searchSpecMatch "42" reg142 = true ∧
    dbSearchRegistrants [reg142] "42" = [] := by
  constructor
  · decide
  · decide

/-- C5 amended: `MemStorage.searchRegistrants` matches the claim — it returns
exactly the registrants whose name contains the query case-insensitively or
whose bib rendered as a string contains the query, in `list()` order; but
`DatabaseStorage.searchRegistrants` instead matches the bib by equality with
`parseInt(query)` (falling back to −1 when the parse yields NaN or 0), so
`search("42")` there returns only registrants with bib exactly 42 or a
matching name. -/
theorem c5_search_semantics :
    (∀ s q, MemStorage.searchRegistrants s q =
      (MemStorage.getRegistrants s).filter (searchSpecMatch q)) ∧
    (∀ rows q r, r ∈ dbSearchRegistrants rows q ↔
      (r ∈ rows ∧ (ilikeContains r.name (strToLower q) = true ∨
        (r.bib : Int) = parseIntOrNeg1 q))) := by
  constructor
  · intro s q
    rfl
  · intro rows q r
    unfold dbSearchRegistrants sortByCreatedDesc
    rw [List.Perm.mem_iff (List.perm_insertionSort _ _)]
    simp [List.mem_filter, Bool.or_eq_true]

/-- C6 counterexample: an intake request with the empty name is not rejected —
the server schema has no minimum length, so the registrant is created and
persisted with name `""`. -/
theorem c6_empty_name_accepted :
    (postRegistrantsHandler [("name", Jval.str "")] MemStorage.empty "id9" 0
        (fun _ => 41) 1).1 = .created ⟨"id9", "", 42, 0, "pendente"⟩ ∧
    ((postRegistrantsHandler [("name", Jval.str "")] MemStorage.empty "id9" 0
        (fun _ => 41) 1).2).registrants =
      [("id9", ⟨"id9", "", 42, 0, "pendente"⟩)] :=
  ⟨rfl, rfl⟩

/-- C6 amended: the intake schema rejects a request (with a ValidationError,
persisting nothing) exactly when the body's `name` is missing or not a string;
any string name — including the empty and one-character ones — passes, with no
trimming and no minimum length (the 2-character minimum exists only in the
client form schema). -/
theorem c6_name_validation_as_implemented :
    (∀ body name, lookupField body "name" = some (Jval.str name) →
      parseInsertRegistrant body = .ok ⟨name⟩) ∧
    (∀ body, (∀ name, ¬ lookupField body "name" = some (Jval.str name)) →
      parseInsertRegistrant body = .error "ValidationError") ∧
    (∀ body s id now stream fuel msg,
      parseInsertRegistrant body = .error msg →
      postRegistrantsHandler body s id now stream fuel =
        (.badRequest msg, s)) := by
  refine ⟨?_, ?_, ?_⟩
  · intro body name hl
    unfold parseInsertRegistrant
    rw [hl]
  · intro body hl
    unfold parseInsertRegistrant
    cases hx : lookupField body "name" with
    | none => rfl
    | some jv =>
      cases jv with
      | str st => exact absurd hx (hl st)
      | num n => rfl
      | null => rfl
  · intro body s id now stream fuel msg hparse
    unfold postRegistrantsHandler
    rw [hparse]

theorem c6_name_validation_witness :
    parseInsertRegistrant [("name", Jval.str "A")] = .ok ⟨"A"⟩ ∧
    parseInsertRegistrant [("x", Jval.num 3)] = .error "ValidationError" ∧
    postRegistrantsHandler [("x", Jval.num 3)] regStore "id9" 0 (fun _ => 0) 1 =
      (.badRequest "ValidationError", regStore) :=
  ⟨c6_name_validation_as_implemented.1 [("name", Jval.str "A")] "A" rfl,
   c6_name_validation_as_implemented.2.1 [("x", Jval.num 3)]
     (fun _ h => Option.noConfusion h),
   c6_name_validation_as_implemented.2.2 [("x", Jval.num 3)] regStore "id9" 0
     (fun _ => 0) 1 "ValidationError" rfl⟩

/-- C7 counterexample: an intake request carrying a syntactically invalid
email is not rejected — the server schema has no email field, the pair is
stripped, the registrant is created, and the persisted record carries no
email at all. -/
theorem c7_invalid_email_accepted :
    (postRegistrantsHandler
        [("name", Jval.str "Maria"), ("email", Jval.str "not-an-email")]
        MemStorage.empty "id1" 0 (fun _ => 41) 1).1 =
      .created ⟨"id1", "Maria", 42, 0, "pendente"⟩ ∧
    ((postRegistrantsHandler
        [("name", Jval.str "Maria"), ("email", Jval.str "not-an-email")]
        MemStorage.empty "id1" 0 (fun _ => 41) 1).2).registrants =
      [("id1", ⟨"id1", "Maria", 42, 0, "pendente"⟩)] :=
  ⟨rfl, rfl⟩

/-- C7 amended: the server intake schema has no email field, so an `email`
entry in the request body — valid or not — is stripped and never validated:
both the parsed payload and the whole intake handler are insensitive to it,
and the Registrant record has no email field to persist. -/
theorem c7_email_ignored :
    (∀ v body, parseInsertRegistrant (("email", v) :: body) =
      parseInsertRegistrant body) ∧
    (∀ v body s id now stream fuel,
      postRegistrantsHandler (("email", v) :: body) s id now stream fuel =
        postRegistrantsHandler body s id now stream fuel) := by
  have hl : ∀ (v : Jval) body,
      lookupField (("email", v) :: body) "name" = lookupField body "name" := by
    intro v body
    simp [lookupField, List.find?_cons]
  have hp : ∀ (v : Jval) body,
      parseInsertRegistrant (("email", v) :: body) =
        parseInsertRegistrant body := by
    intro v body
    unfold parseInsertRegistrant
    rw [hl]
  refine ⟨hp, ?_⟩
  intro v body s id now stream fuel
  unfold postRegistrantsHandler
  rw [hp]

end Afcorrida
